import Mathlib

/-
Verification of the cronos-evm-client library against its specification.

The development embeds, as executable Lean definitions:
  * the response-decoding helpers (`hexToScaledDecimal` for scaled decimal
    amounts, `format.decodeHexString` for ABI-encoded text) — these helpers
    live in `src/helpers/formatting.ts`, which is not part of the provided
    sources, so they are modelled from the specification (section 4.4);
  * the CRC20 / CRC721 operation pipelines from `src/integrations` (error
    envelope inspection, per-operation error tagging, decoding of results);
  * the client factory from `src/cronosClient.ts` (endpoint binding and the
    optional bearer-token header).
-/

/-! ## Generic list utilities used by the decoders -/

/-- Remove every trailing occurrence of `a` from the end of `l`. -/
def rstrip {α : Type} [DecidableEq α] (a : α) (l : List α) : List α :=
  (l.reverse.dropWhile fun x => decide (x = a)).reverse

/-! ## Decimal digit strings -/

/-- Least-significant-first decimal digits of `n`, with explicit fuel
(`decDigitsRev n n` yields the digits of `n`, empty for `n = 0`). -/
def decDigitsRev : Nat → Nat → List Nat
  | 0, _ => []
  | _ + 1, 0 => []
  | f + 1, n + 1 => (n + 1) % 10 :: decDigitsRev f ((n + 1) / 10)

/-- Value of a least-significant-first decimal digit list. -/
def ofDigitsRev : List Nat → Nat
  | [] => 0
  | d :: ds => d + 10 * ofDigitsRev ds

/-- Decimal string (as a character list) of a natural number, `['0']` for zero. -/
def natToDecList (n : Nat) : List Char :=
  if n = 0 then ['0']
  else ((decDigitsRev n n).map fun d => Char.ofNat (48 + d)).reverse

/-- Value of a most-significant-first list of decimal digit characters. -/
def decListVal (l : List Char) : Nat :=
  l.foldl (fun a c => 10 * a + (c.toNat - 48)) 0

/-! ## hex-to-scaled-decimal (spec section 4.4)

Modelled from the spec: the formatting helper module
(`src/helpers/formatting.ts`, imported by the integrations as
`format.weiToEther` / `format.formatTokenAmount`) is not among the provided
sources.  Per the spec it parses the hexadecimal string (handling the `0x`
prefix and arbitrary magnitude) as an unsigned big integer and produces its
decimal string representation divided by `10 ^ decimals`, preserving
fractional precision; an all-zero or empty payload decodes to `"0"`. -/

/-- Left-pad a digit list with `'0'` up to length `d`. -/
def padLeft (d : Nat) (l : List Char) : List Char :=
  List.replicate (d - l.length) '0' ++ l

/-- Fractional digits of `r / 10 ^ d`: the `d`-digit zero-padded decimal
representation of `r` with trailing zeros removed. -/
def fracPart (r d : Nat) : List Char :=
  rstrip '0' (padLeft d (natToDecList r))

/-- Decimal string (as a character list) of `n / 10 ^ d` with full fractional
precision: integer part, and a fractional part exactly when it is nonzero. -/
def scaledDecimalList (n d : Nat) : List Char :=
  if fracPart (n % 10 ^ d) d = [] then natToDecList (n / 10 ^ d)
  else natToDecList (n / 10 ^ d) ++ '.' :: fracPart (n % 10 ^ d) d

/-- Decimal string of `n / 10 ^ d` with full fractional precision. -/
def scaledDecimal (n d : Nat) : String :=
  String.mk (scaledDecimalList n d)

/-- Hexadecimal value of one character, `none` on a non-hex character. -/
def hexDigitVal (c : Char) : Option Nat :=
  if '0' ≤ c ∧ c ≤ '9' then some (c.toNat - 48)
  else if 'a' ≤ c ∧ c ≤ 'f' then some (c.toNat - 87)
  else if 'A' ≤ c ∧ c ≤ 'F' then some (c.toNat - 55)
  else none

/-- Big-endian fold of hex digit characters into a natural number. -/
def hexListValAux : Nat → List Char → Option Nat
  | acc, [] => some acc
  | acc, c :: cs =>
    match hexDigitVal c with
    | some v => hexListValAux (16 * acc + v) cs
    | none => none

/-- Drop a leading `0x` marker, if present. -/
def stripHexMarker (l : List Char) : List Char :=
  if l.take 2 = ['0', 'x'] then l.drop 2 else l

/-- Parse a (possibly `0x`-prefixed) hexadecimal string as an unsigned big
integer; the empty payload parses to `0`. -/
def parseHexNat (s : String) : Option Nat :=
  hexListValAux 0 (stripHexMarker s.data)

/-- Modelled from the spec: `hex-to-scaled-decimal(hexString, decimals)` of
section 4.4 — parse the hex string as an unsigned big integer and render it
divided by `10 ^ decimals` with full fractional precision. -/
def hexToScaledDecimal (s : String) (d : Nat) : Option String :=
  (parseHexNat s).map fun n => scaledDecimal n d

/-! ## Denotation of decimal strings as rationals -/

/-- Rational value denoted by a decimal string: the part before the first
`'.'` is the integer part, the part after it the fractional part. -/
def decimalDenoteList (l : List Char) : ℚ :=
  ((decListVal (l.takeWhile fun c => c != '.') : ℚ)
      * 10 ^ ((l.dropWhile fun c => c != '.').drop 1).length
    + (decListVal ((l.dropWhile fun c => c != '.').drop 1) : ℚ))
    / 10 ^ ((l.dropWhile fun c => c != '.').drop 1).length

/-- Rational value denoted by a decimal string. -/
def decimalDenote (s : String) : ℚ :=
  decimalDenoteList s.data

/-! ## decode-abi-hex-string (spec section 4.4)

Modelled from the spec: `format.decodeHexString` of the missing
`src/helpers/formatting.ts`.  Per the spec, an ABI dynamic string is prefixed
by a 32-byte offset word and a 32-byte length word before the UTF-8 payload;
the decoder strips the non-payload words, interprets the character bytes
(modelled here at the ASCII subset of UTF-8), and trims the trailing null
padding; already-plain (non-padded) hex text is decoded directly.  The header
is recognised by size: a hex payload of at least 128 characters (two 32-byte
words) is treated as carrying the two header words. -/

/-- Lowercase hexadecimal digit character for `d < 16`. -/
def hexDigitChar (d : Nat) : Char :=
  if d < 10 then Char.ofNat (48 + d) else Char.ofNat (87 + d)

/-- Two-character hexadecimal rendering of one byte. -/
def byteToHexList (b : Nat) : List Char :=
  [hexDigitChar (b / 16), hexDigitChar (b % 16)]

/-- Hexadecimal rendering of a byte sequence. -/
def bytesToHex : List Nat → List Char
  | [] => []
  | b :: bs => byteToHexList b ++ bytesToHex bs

/-- Parse pairs of hex characters into bytes; `none` if a character is not a
hex digit or the input has odd length. -/
def hexPairsToBytes : List Char → Option (List Nat)
  | [] => some []
  | [_] => none
  | c1 :: c2 :: rest =>
    match hexDigitVal c1, hexDigitVal c2, hexPairsToBytes rest with
    | some hi, some lo, some bs => some ((16 * hi + lo) :: bs)
    | _, _, _ => none

/-- Modelled from the spec: `decode-abi-hex-string` — strip the `0x` marker
and, when the payload is large enough to carry the offset and length header
words, those 128 header characters; decode the remaining hex pairs as bytes
and drop the trailing null padding. -/
def decodeHexStringList (l : List Char) : Option String :=
  (hexPairsToBytes
      (if 128 ≤ (stripHexMarker l).length
        then (stripHexMarker l).drop 128
        else stripHexMarker l)).map
    fun bs => String.mk ((rstrip 0 bs).map Char.ofNat)

/-- Big-endian 32-byte (64 hex character) word encoding of `n` (mod 2^256). -/
def natToHexWord (n : Nat) : List Char :=
  (List.range 64).map fun i => hexDigitChar (n / 16 ^ (63 - i) % 16)

/-- Zero-byte count padding an ABI string payload to a 32-byte boundary. -/
def abiStringPad (len : Nat) : Nat :=
  (32 - len % 32) % 32

/-- Standard ABI dynamic-string encoding of `s` (ASCII payload): `0x`, the
offset word (32), the length word, and the null-padded payload bytes. -/
def abiEncodeString (s : String) : String :=
  String.mk ('0' :: 'x' ::
    (natToHexWord 32 ++ natToHexWord (s.data.map Char.toNat).length ++
      bytesToHex ((s.data.map Char.toNat) ++
        List.replicate (abiStringPad (s.data.map Char.toNat).length) 0)))

namespace format

/-- Modelled from the spec: `format.weiToEther` — 18-decimal (wei-to-ether)
scaling of a hexadecimal amount. -/
def weiToEther (s : String) : Option String :=
  hexToScaledDecimal s 18

/-- Modelled from the spec: `format.formatTokenAmount` — scaled decimal
rendering of a hexadecimal amount at the given decimal precision. -/
def formatTokenAmount (s : String) (d : Nat) : Option String :=
  hexToScaledDecimal s d

/-- Modelled from the spec: `format.decodeHexString` — ABI hex string
decoding (spec section 4.4). -/
def decodeHexString (s : String) : Option String :=
  decodeHexStringList s.data

end format

/-! ## JSON-RPC data model (src/lib/interfaces) -/

/-- One entry of the `params` sequence: a structured call object or a plain
string (spec section 3, "ordered sequence of (object | string)"). -/
inductive RequestParam : Type
  | obj (toAddr : String) (data : String)
  | str (s : String)
deriving DecidableEq

/-- Payload type `JsonRpcRequestPayload`: the caller-built `{ method, params }` body. -/
structure JsonRpcRequestPayload : Type where
  method : String
  params : List RequestParam
deriving DecidableEq

/-- Error member type `JsonRpcError`: the error member of a response envelope. -/
structure JsonRpcError : Type where
  message : String
deriving DecidableEq

/-- Envelope type `JsonRpcResponse<string>`: the response envelope; `error = none` models an
absent (undefined, hence falsy) `error` field. -/
structure JsonRpcResponse : Type where
  result : String
  error : Option JsonRpcError
deriving DecidableEq

/-- Outcome of one operation: success with the decoded string, a node-reported
failure carrying the thrown message, or a decoder failure. -/
inductive OpError : Type
  | node (msg : String)
  | decode
deriving DecidableEq

/-! ## CRC20 operations (src/integrations/crc20.ts)

Each operation posts the payload, inspects the returned envelope, and on a
truthy `error` member logs and throws `"[crc20/<op>] error: " + error.message`;
otherwise it applies its decoder to `response.data.result`.  The outcome is a
function of the envelope the transport returned. -/

namespace crc20

def getBalance (resp : JsonRpcResponse) : Except OpError String :=
  match resp.error with
  | some e => Except.error (OpError.node ("[crc20/getBalance] error: " ++ e.message))
  | none =>
    match format.weiToEther resp.result with
    | some v => Except.ok v
    | none => Except.error OpError.decode

def getBalanceOf (resp : JsonRpcResponse) : Except OpError String :=
  match resp.error with
  | some e => Except.error (OpError.node ("[crc20/getBalanceOf] error: " ++ e.message))
  | none =>
    match format.weiToEther resp.result with
    | some v => Except.ok v
    | none => Except.error OpError.decode

def getName (resp : JsonRpcResponse) : Except OpError String :=
  match resp.error with
  | some e => Except.error (OpError.node ("[crc20/getName] error: " ++ e.message))
  | none =>
    match format.decodeHexString resp.result with
    | some v => Except.ok v
    | none => Except.error OpError.decode

def getSymbol (resp : JsonRpcResponse) : Except OpError String :=
  match resp.error with
  | some e => Except.error (OpError.node ("[crc20/getSymbol] error: " ++ e.message))
  | none =>
    match format.decodeHexString resp.result with
    | some v => Except.ok v
    | none => Except.error OpError.decode

def getTotalSupply (resp : JsonRpcResponse) : Except OpError String :=
  match resp.error with
  | some e => Except.error (OpError.node ("[crc20/getTotalSupply] error: " ++ e.message))
  | none =>
    match format.formatTokenAmount resp.result 6 with
    | some v => Except.ok v
    | none => Except.error OpError.decode

end crc20

/-! ## CRC721 operations (src/integrations/crc721.ts)

Note: in the source, `getTokenUri` logs and throws with the literal tag
`[crc721/getBalanceOf]`, not `[crc721/getTokenUri]` — this is embedded
faithfully below. -/

namespace crc721

def getBalanceOf (resp : JsonRpcResponse) : Except OpError String :=
  match resp.error with
  | some e => Except.error (OpError.node ("[crc721/getBalanceOf] error: " ++ e.message))
  | none =>
    match format.formatTokenAmount resp.result 0 with
    | some v => Except.ok v
    | none => Except.error OpError.decode

def getOwnerOf (resp : JsonRpcResponse) : Except OpError String :=
  match resp.error with
  | some e => Except.error (OpError.node ("[crc721/getOwnerOf] error: " ++ e.message))
  | none => Except.ok resp.result

def getTokenUri (resp : JsonRpcResponse) : Except OpError String :=
  match resp.error with
  | some e => Except.error (OpError.node ("[crc721/getBalanceOf] error: " ++ e.message))
  | none =>
    match format.decodeHexString resp.result with
    | some v => Except.ok v
    | none => Except.error OpError.decode

end crc721

/-! ## Client factory (src/cronosClient.ts) -/

/-- Configuration `ClientConfig`: `{ endpoint, apiKey? }`. -/
structure ClientConfig : Type where
  endpoint : String
  apiKey : Option String
deriving DecidableEq

/-- The axios instance: base URL plus the header set built once at creation. -/
structure Client : Type where
  baseURL : String
  headers : List (String × String)
deriving DecidableEq

/-- Header set of `axios.create`: `apiKey ? { Authorization: Bearer <key> } : {}`.
JavaScript truthiness on a string option: an absent or empty-string key is
falsy, so it yields the empty header set. -/
def createClientHeaders (apiKey : Option String) : List (String × String) :=
  match apiKey with
  | some k => if k = "" then [] else [("Authorization", "Bearer " ++ k)]
  | none => []

/-- Factory `createClient`: bind the endpoint and the once-computed header set. -/
def createClient (cfg : ClientConfig) : Client :=
  { baseURL := cfg.endpoint, headers := createClientHeaders cfg.apiKey }

/-- The single outbound HTTP request a call issues. -/
structure HttpRequest : Type where
  url : String
  path : String
  headers : List (String × String)
  body : JsonRpcRequestPayload
deriving DecidableEq

/-- Request builder `instance.post('', data)`: every operation issues exactly one POST with an
empty path, the bound base URL and the bound header set. -/
def Client.post (c : Client) (payload : JsonRpcRequestPayload) : HttpRequest :=
  { url := c.baseURL, path := "", headers := c.headers, body := payload }

/-! ## Lemmas and claim theorems -/

theorem dropWhile_eq_nil_of_all {α : Type} (p : α → Bool) (l : List α)
    (h : ∀ x ∈ l, p x = true) : l.dropWhile p = [] := by
  induction l with
  | nil => rfl
  | cons x t ih =>
    rw [List.dropWhile_cons, if_pos (h x (List.mem_cons_self x t))]
    exact ih fun y hy => h y (List.mem_cons_of_mem x hy)

theorem dropWhile_eq_self_of_head {α : Type} (p : α → Bool) (l : List α)
    (h : ∀ x ∈ l, p x = false) : l.dropWhile p = l := by
  cases l with
  | nil => rfl
  | cons x t =>
    rw [List.dropWhile_cons, if_neg]
    simp [h x (List.mem_cons_self x t)]

theorem takeWhile_eq_self_of_all {α : Type} (p : α → Bool) (l : List α)
    (h : ∀ x ∈ l, p x = true) : l.takeWhile p = l := by
  induction l with
  | nil => rfl
  | cons x t ih =>
    rw [List.takeWhile_cons, if_pos (h x (List.mem_cons_self x t))]
    rw [ih fun y hy => h y (List.mem_cons_of_mem x hy)]

theorem rstrip_spec {α : Type} [DecidableEq α] (a : α) (l : List α) :
    ∃ k, l = rstrip a l ++ List.replicate k a := by
  refine ⟨(l.reverse.takeWhile fun x => decide (x = a)).length, ?_⟩
  have hsplit := List.takeWhile_append_dropWhile
    (p := fun x => decide (x = a)) (l := l.reverse)
  have hrep : l.reverse.takeWhile (fun x => decide (x = a))
      = List.replicate (l.reverse.takeWhile fun x => decide (x = a)).length a := by
    apply List.eq_replicate_of_mem
    intro b hb
    have := List.mem_takeWhile_imp hb
    simpa using this
  calc l = l.reverse.reverse := (List.reverse_reverse l).symm
    _ = (l.reverse.takeWhile (fun x => decide (x = a))
          ++ l.reverse.dropWhile (fun x => decide (x = a))).reverse := by rw [hsplit]
    _ = rstrip a l ++ (l.reverse.takeWhile fun x => decide (x = a)).reverse := by
          rw [List.reverse_append]; rfl
    _ = _ := by
          congr 1
          rw [hrep, List.reverse_replicate, List.length_replicate]

theorem rstrip_all {α : Type} [DecidableEq α] (a : α) (l : List α)
    (h : ∀ x ∈ l, x = a) : rstrip a l = [] := by
  unfold rstrip
  rw [dropWhile_eq_nil_of_all]
  · rfl
  · intro x hx
    simp [h x (List.mem_reverse.mp hx)]

theorem rstrip_of_ne {α : Type} [DecidableEq α] (a : α) (l : List α)
    (h : ∀ x ∈ l, x ≠ a) : rstrip a l = l := by
  unfold rstrip
  rw [dropWhile_eq_self_of_head, List.reverse_reverse]
  intro x hx
  simp [h x (List.mem_reverse.mp hx)]

theorem rstrip_append_replicate {α : Type} [DecidableEq α] (a : α) (l : List α) (k : Nat) :
    rstrip a (l ++ List.replicate k a) = rstrip a l := by
  unfold rstrip
  rw [List.reverse_append, List.reverse_replicate]
  congr 1
  induction k with
  | zero => rfl
  | succ k ih => simp [List.replicate_succ, List.dropWhile_cons]

theorem ofDigitsRev_decDigitsRev : ∀ f n, n ≤ f → ofDigitsRev (decDigitsRev f n) = n := by
  intro f
  induction f with
  | zero => intro n hn; interval_cases n; rfl
  | succ f ih =>
    intro n hn
    match n with
    | 0 => rfl
    | n + 1 =>
      have hdiv : (n + 1) / 10 ≤ f := by omega
      simp only [decDigitsRev, ofDigitsRev, ih _ hdiv]
      omega

theorem decDigitsRev_lt : ∀ f n d, d ∈ decDigitsRev f n → d < 10 := by
  intro f
  induction f with
  | zero => intro n d hd; simp [decDigitsRev] at hd
  | succ f ih =>
    intro n d hd
    match n with
    | 0 => simp [decDigitsRev] at hd
    | n + 1 =>
      simp only [decDigitsRev, List.mem_cons] at hd
      rcases hd with h | h
      · omega
      · exact ih _ _ h

theorem decDigitsRev_length : ∀ f n e, n ≤ f → n < 10 ^ e → (decDigitsRev f n).length ≤ e := by
  intro f
  induction f with
  | zero => intro n e hn _; interval_cases n; simp [decDigitsRev]
  | succ f ih =>
    intro n e hn hlt
    match n with
    | 0 => simp [decDigitsRev]
    | n + 1 =>
      match e with
      | 0 => simp at hlt
      | e + 1 =>
        have hdiv : (n + 1) / 10 ≤ f := by omega
        have hdlt : (n + 1) / 10 < 10 ^ e := by
          apply Nat.div_lt_of_lt_mul
          calc n + 1 < 10 ^ (e + 1) := hlt
            _ = 10 * 10 ^ e := by ring
        simpa [decDigitsRev] using ih _ e hdiv hdlt

theorem decListVal_aux : ∀ (l : List Char) (a : Nat),
    l.foldl (fun a c => 10 * a + (c.toNat - 48)) a = a * 10 ^ l.length + decListVal l := by
  intro l
  induction l with
  | nil => intro a; simp [decListVal]
  | cons c t ih =>
    intro a
    have h1 : decListVal (c :: t) = (10 * 0 + (c.toNat - 48)) * 10 ^ t.length + decListVal t := by
      simpa [decListVal, List.foldl_cons] using ih (10 * 0 + (c.toNat - 48))
    simp only [List.foldl_cons, ih (10 * a + (c.toNat - 48)), h1, List.length_cons]
    ring

theorem decListVal_append (a b : List Char) :
    decListVal (a ++ b) = decListVal a * 10 ^ b.length + decListVal b := by
  simp only [decListVal, List.foldl_append]
  simpa [decListVal] using decListVal_aux b (List.foldl (fun a c => 10 * a + (c.toNat - 48)) 0 a)

theorem decListVal_replicate_zero (k : Nat) : decListVal (List.replicate k '0') = 0 := by
  induction k with
  | zero => rfl
  | succ k ih =>
    have : decListVal (List.replicate (k + 1) '0')
        = decListVal (List.replicate k '0') := by
      simp [decListVal, List.replicate_succ, List.foldl_cons]
    rw [this, ih]

theorem toNat_ofNat_digit (d : Nat) (h : d < 10) : (Char.ofNat (48 + d)).toNat = 48 + d := by
  interval_cases d <;> decide

theorem foldr_charDigits (ds : List Nat) (h : ∀ d ∈ ds, d < 10) :
    ds.foldr (fun d y => 10 * y + ((Char.ofNat (48 + d)).toNat - 48)) 0 = ofDigitsRev ds := by
  induction ds with
  | nil => rfl
  | cons d t ih =>
    simp only [List.foldr_cons, ofDigitsRev]
    rw [ih fun x hx => h x (List.mem_cons_of_mem d hx)]
    rw [toNat_ofNat_digit d (h d (List.mem_cons_self d t))]
    omega

theorem decListVal_natToDecList (n : Nat) : decListVal (natToDecList n) = n := by
  by_cases hn : n = 0
  · subst hn; decide
  · simp only [natToDecList, if_neg hn, decListVal]
    rw [List.foldl_reverse, List.foldr_map]
    have := foldr_charDigits (decDigitsRev n n) (fun d hd => decDigitsRev_lt n n d hd)
    simpa [this] using ofDigitsRev_decDigitsRev n n le_rfl

theorem natToDecList_mem (n : Nat) : ∀ c ∈ natToDecList n, 48 ≤ c.toNat ∧ c.toNat ≤ 57 := by
  intro c hc
  by_cases hn : n = 0
  · subst hn; simp [natToDecList] at hc; subst hc; decide
  · simp only [natToDecList, if_neg hn, List.mem_reverse, List.mem_map] at hc
    obtain ⟨d, hd, rfl⟩ := hc
    have hlt := decDigitsRev_lt n n d hd
    rw [toNat_ofNat_digit d hlt]
    omega

theorem natToDecList_ne_dot (n : Nat) : ∀ c ∈ natToDecList n, (c != '.') = true := by
  intro c hc
  have h2 := natToDecList_mem n c hc
  simp only [bne_iff_ne, ne_eq]
  intro h3
  rw [h3] at h2
  have : ('.' : Char).toNat = 46 := rfl
  omega

theorem natToDecList_length_le (n e : Nat) (h : n < 10 ^ e) (hn : n ≠ 0) :
    (natToDecList n).length ≤ e := by
  simp only [natToDecList, if_neg hn, List.length_reverse, List.length_map]
  exact decDigitsRev_length n n e le_rfl h

theorem natToDecList_ne_nil (n : Nat) : natToDecList n ≠ [] := by
  by_cases hn : n = 0
  · subst hn; decide
  · simp only [natToDecList, if_neg hn]
    intro h
    rw [List.reverse_eq_nil_iff, List.map_eq_nil_iff] at h
    match n, hn with
    | n + 1, _ => simp [decDigitsRev] at h

theorem takeWhile_dot_append (I F : List Char) (hI : ∀ c ∈ I, (c != '.') = true) :
    ((I ++ '.' :: F).takeWhile fun c => c != '.') = I := by
  induction I with
  | nil => simp [List.takeWhile_cons]
  | cons c t ih =>
    simp only [List.cons_append, List.takeWhile_cons]
    rw [if_pos (hI c (List.mem_cons_self c t))]
    rw [ih fun y hy => hI y (List.mem_cons_of_mem c hy)]

theorem dropWhile_dot_append (I F : List Char) (hI : ∀ c ∈ I, (c != '.') = true) :
    ((I ++ '.' :: F).dropWhile fun c => c != '.') = '.' :: F := by
  induction I with
  | nil => simp [List.dropWhile_cons]
  | cons c t ih =>
    simp only [List.cons_append, List.dropWhile_cons]
    rw [if_pos (hI c (List.mem_cons_self c t))]
    exact ih fun y hy => hI y (List.mem_cons_of_mem c hy)

theorem decimalDenoteList_no_dot (l : List Char) (h : ∀ c ∈ l, (c != '.') = true) :
    decimalDenoteList l = (decListVal l : ℚ) := by
  simp [decimalDenoteList, takeWhile_eq_self_of_all _ _ h, dropWhile_eq_nil_of_all _ _ h,
    decListVal]

theorem fracPart_zero (d : Nat) : fracPart 0 d = [] := by
  apply rstrip_all
  intro x hx
  rw [show natToDecList 0 = ['0'] from rfl] at hx
  simp only [padLeft, List.mem_append, List.mem_replicate, List.mem_singleton] at hx
  rcases hx with ⟨_, h⟩ | h <;> exact h

/-- Central correctness fact for the scaled-decimal rendering: the produced
string denotes exactly `n / 10 ^ d` as a rational number. -/
theorem decimalDenoteList_scaledDecimalList (n d : Nat) :
    decimalDenoteList (scaledDecimalList n d) = (n : ℚ) / 10 ^ d := by
  have hpow : (0 : ℕ) < 10 ^ d := pow_pos (by norm_num) d
  have hmod : n % 10 ^ d < 10 ^ d := Nat.mod_lt _ hpow
  have hdm : 10 ^ d * (n / 10 ^ d) + n % 10 ^ d = n := Nat.div_add_mod n (10 ^ d)
  have hvp : decListVal (padLeft d (natToDecList (n % 10 ^ d))) = n % 10 ^ d := by
    rw [padLeft, decListVal_append, decListVal_replicate_zero, decListVal_natToDecList]
    ring
  obtain ⟨k, hk⟩ := rstrip_spec '0' (padLeft d (natToDecList (n % 10 ^ d)))
  have hk' : padLeft d (natToDecList (n % 10 ^ d))
      = fracPart (n % 10 ^ d) d ++ List.replicate k '0' := hk
  by_cases hf : fracPart (n % 10 ^ d) d = []
  · have hr0 : n % 10 ^ d = 0 := by
      have hz : decListVal (padLeft d (natToDecList (n % 10 ^ d))) = 0 := by
        rw [hk', hf, List.nil_append, decListVal_replicate_zero]
      omega
    have hqn : (n : ℚ) = 10 ^ d * (n / 10 ^ d : ℕ) := by
      have h2 : 10 ^ d * (n / 10 ^ d) = n := by omega
      exact_mod_cast h2.symm
    rw [scaledDecimalList, if_pos hf,
      decimalDenoteList_no_dot _ (natToDecList_ne_dot _), decListVal_natToDecList, hqn]
    rw [mul_comm, mul_div_assoc, div_self (by positivity), mul_one]
  · have hr0 : n % 10 ^ d ≠ 0 := by
      intro h0
      rw [h0] at hf
      exact hf (fracPart_zero d)
    have hlen : (natToDecList (n % 10 ^ d)).length ≤ d :=
      natToDecList_length_le _ _ hmod hr0
    have hplen : (padLeft d (natToDecList (n % 10 ^ d))).length = d := by
      simp only [padLeft, List.length_append, List.length_replicate]
      omega
    have hkd : (fracPart (n % 10 ^ d) d).length + k = d := by
      rw [hk'] at hplen
      simpa using hplen
    have hvf : decListVal (fracPart (n % 10 ^ d) d) * 10 ^ k = n % 10 ^ d := by
      rw [hk', decListVal_append, decListVal_replicate_zero, List.length_replicate] at hvp
      omega
    rw [scaledDecimalList, if_neg hf, decimalDenoteList,
      takeWhile_dot_append _ _ (natToDecList_ne_dot _),
      dropWhile_dot_append _ _ (natToDecList_ne_dot _)]
    simp only [List.drop_succ_cons, List.drop_zero]
    rw [decListVal_natToDecList]
    rw [div_eq_div_iff (by positivity) (by positivity)]
    have hn2 : 10 ^ d * (n / 10 ^ d) + decListVal (fracPart (n % 10 ^ d) d) * 10 ^ k = n := by
      omega
    have hcast : (n : ℚ) = 10 ^ d * (n / 10 ^ d : ℕ)
        + (decListVal (fracPart (n % 10 ^ d) d) : ℚ) * 10 ^ k := by
      exact_mod_cast hn2.symm
    have hsplitpow : (10 : ℚ) ^ d = 10 ^ (fracPart (n % 10 ^ d) d).length * 10 ^ k := by
      rw [← pow_add]
      congr 1
      omega
    rw [hcast, hsplitpow]
    ring

theorem scaledDecimal_zero (d : Nat) : scaledDecimal 0 d = "0" := by
  rw [scaledDecimal, scaledDecimalList, Nat.zero_mod, fracPart_zero, if_pos rfl, Nat.zero_div]
  rfl

theorem hexListValAux_zeros (k : Nat) : hexListValAux 0 (List.replicate k '0') = some 0 := by
  induction k with
  | zero => rfl
  | succ k ih =>
    rw [List.replicate_succ]
    simpa [hexListValAux, show hexDigitVal '0' = some 0 from by decide] using ih

/-- C3: for every hexadecimal integer string `h` (with `0x` prefix, of
arbitrary magnitude) whose big-integer value is `n`, and every decimal
precision `d`, `hexToScaledDecimal h d` is a decimal string denoting exactly
`n / 10 ^ d` as a rational (true division, full fractional precision); in
particular at precision `0` it is exactly the decimal representation of `n`. -/
theorem hexToScaledDecimal_correct (h : String) (n d : Nat)
    (hp : parseHexNat h = some n) :
    hexToScaledDecimal h d = some (scaledDecimal n d) ∧
    decimalDenote (scaledDecimal n d) = (n : ℚ) / 10 ^ d ∧
    hexToScaledDecimal h 0 = some (String.mk (natToDecList n)) := by
  have h0 : scaledDecimalList n 0 = natToDecList n := by
    rw [scaledDecimalList]
    have e1 : n % 10 ^ 0 = 0 := by simp [Nat.mod_one]
    rw [e1, fracPart_zero, if_pos rfl]
    simp
  refine ⟨by simp [hexToScaledDecimal, hp], ?_, ?_⟩
  · exact decimalDenoteList_scaledDecimalList n d
  · simp [hexToScaledDecimal, hp, scaledDecimal, h0]

/-- Witness for the C3 theorem at the 70-bit value 1000·10^18 (exceeding the
64-bit range, as the claim requires). -/
theorem hexToScaledDecimal_correct_witness :
    parseHexNat "0x3635c9adc5dea00000" = some 1000000000000000000000 ∧
    (hexToScaledDecimal "0x3635c9adc5dea00000" 18
        = some (scaledDecimal 1000000000000000000000 18) ∧
      decimalDenote (scaledDecimal 1000000000000000000000 18)
        = ((1000000000000000000000 : ℕ) : ℚ) / 10 ^ 18 ∧
      hexToScaledDecimal "0x3635c9adc5dea00000" 0
        = some (String.mk (natToDecList 1000000000000000000000))) :=
  ⟨rfl, hexToScaledDecimal_correct _ _ _ rfl⟩

/-- C9: hex-to-scaled-decimal maps `"0x0"`, every all-zero payload, the bare
`"0x"` marker and the empty string to `"0"`, for every precision `d`. -/
theorem hexToScaledDecimal_zero_inputs (d k : Nat) :
    hexToScaledDecimal "0x0" d = some "0" ∧
    hexToScaledDecimal (String.mk ('0' :: 'x' :: List.replicate k '0')) d = some "0" ∧
    hexToScaledDecimal "0x" d = some "0" ∧
    hexToScaledDecimal "" d = some "0" := by
  refine ⟨?_, ?_, ?_, ?_⟩
  · simp [hexToScaledDecimal, show parseHexNat "0x0" = some 0 from rfl, scaledDecimal_zero]
  · have hp : parseHexNat (String.mk ('0' :: 'x' :: List.replicate k '0')) = some 0 := by
      show hexListValAux 0 (stripHexMarker ('0' :: 'x' :: List.replicate k '0')) = some 0
      rw [stripHexMarker,
        if_pos (show List.take 2 ('0' :: 'x' :: List.replicate k '0') = ['0', 'x'] from rfl)]
      exact hexListValAux_zeros k
    simp [hexToScaledDecimal, hp, scaledDecimal_zero]
  · simp [hexToScaledDecimal, show parseHexNat "0x" = some 0 from rfl, scaledDecimal_zero]
  · simp [hexToScaledDecimal, show parseHexNat "" = some 0 from rfl, scaledDecimal_zero]

theorem hexDigitVal_hexDigitChar (d : Nat) (h : d < 16) :
    hexDigitVal (hexDigitChar d) = some d := by
  interval_cases d <;> decide

theorem hexPairsToBytes_bytesToHex (bs : List Nat) (h : ∀ b ∈ bs, b < 256) :
    hexPairsToBytes (bytesToHex bs) = some bs := by
  induction bs with
  | nil => rfl
  | cons b t ih =>
    have hb : b < 256 := h b (List.mem_cons_self b t)
    have hhi : b / 16 < 16 := Nat.div_lt_of_lt_mul (by omega)
    have hlo : b % 16 < 16 := Nat.mod_lt _ (by omega)
    show hexPairsToBytes
        (hexDigitChar (b / 16) :: hexDigitChar (b % 16) :: bytesToHex t) = some (b :: t)
    rw [hexPairsToBytes, hexDigitVal_hexDigitChar _ hhi, hexDigitVal_hexDigitChar _ hlo,
      ih fun x hx => h x (List.mem_cons_of_mem b hx)]
    have : 16 * (b / 16) + b % 16 = b := by omega
    simp [this]

theorem bytesToHex_length (bs : List Nat) : (bytesToHex bs).length = 2 * bs.length := by
  induction bs with
  | nil => rfl
  | cons b t ih => simp [bytesToHex, byteToHexList, ih]; omega

theorem natToHexWord_length (n : Nat) : (natToHexWord n).length = 64 := by
  simp [natToHexWord]

theorem stripHexMarker_cons (l : List Char) : stripHexMarker ('0' :: 'x' :: l) = l := by
  rw [stripHexMarker, if_pos (show List.take 2 ('0' :: 'x' :: l) = ['0', 'x'] from rfl)]
  rfl

/-- C4: ABI dynamic-string round trip.  For plain ASCII text (the ASCII
subset of UTF-8, no null characters), decoding the standard ABI layout
(offset word, length word, null-padded payload) returns exactly the original
text with the padding stripped; and plain non-padded hex text (shorter than
one 32-byte word pair) is decoded directly. -/
theorem decodeHexString_abi_roundtrip (cs : List Char)
    (h : ∀ c ∈ cs, 0 < c.toNat ∧ c.toNat < 128) :
    format.decodeHexString (abiEncodeString (String.mk cs)) = some (String.mk cs) ∧
    (cs.length ≤ 63 →
      format.decodeHexString (String.mk ('0' :: 'x' :: bytesToHex (cs.map Char.toNat)))
        = some (String.mk cs)) := by
  have hlt : ∀ b ∈ cs.map Char.toNat, b < 256 := by
    intro b hb
    simp only [List.mem_map] at hb
    obtain ⟨c, hc, rfl⟩ := hb
    have := (h c hc).2
    omega
  have hne : ∀ b ∈ cs.map Char.toNat, b ≠ 0 := by
    intro b hb
    simp only [List.mem_map] at hb
    obtain ⟨c, hc, rfl⟩ := hb
    have := (h c hc).1
    omega
  have hstrip : rstrip 0 (cs.map Char.toNat) = cs.map Char.toNat :=
    rstrip_of_ne 0 _ hne
  have hback : (cs.map Char.toNat).map Char.ofNat = cs := by
    rw [List.map_map]
    calc cs.map (Char.ofNat ∘ Char.toNat)
        = cs.map id := List.map_congr_left fun c _ => Char.ofNat_toNat c
      _ = cs := List.map_id cs
  constructor
  · show decodeHexStringList ('0' :: 'x' ::
      (natToHexWord 32 ++ natToHexWord (cs.map Char.toNat).length ++
        bytesToHex ((cs.map Char.toNat) ++
          List.replicate (abiStringPad (cs.map Char.toNat).length) 0))) = some (String.mk cs)
    rw [decodeHexStringList, stripHexMarker_cons]
    have hcond : 128 ≤ (natToHexWord 32 ++ natToHexWord (cs.map Char.toNat).length ++
        bytesToHex ((cs.map Char.toNat) ++
          List.replicate (abiStringPad (cs.map Char.toNat).length) 0)).length := by
      simp [natToHexWord_length, bytesToHex_length]
      omega
    rw [if_pos hcond]
    have h128 : (natToHexWord 32 ++ natToHexWord (cs.map Char.toNat).length).length = 128 := by
      simp [natToHexWord_length]
    rw [← h128, List.drop_left]
    rw [hexPairsToBytes_bytesToHex]
    · rw [Option.map_some', rstrip_append_replicate, hstrip, hback]
    · intro b hb
      rcases List.mem_append.mp hb with hb | hb
      · exact hlt b hb
      · rw [List.eq_of_mem_replicate hb]
        omega
  · intro hlen
    show decodeHexStringList ('0' :: 'x' :: bytesToHex (cs.map Char.toNat))
        = some (String.mk cs)
    rw [decodeHexStringList, stripHexMarker_cons]
    have hcond : ¬ 128 ≤ (bytesToHex (cs.map Char.toNat)).length := by
      rw [bytesToHex_length, List.length_map]
      omega
    rw [if_neg hcond, hexPairsToBytes_bytesToHex _ hlt, Option.map_some', hstrip, hback]

/-- Witness for the C4 theorem on the concrete text "Hi!". -/
theorem decodeHexString_abi_roundtrip_witness :
    (∀ c ∈ ['H', 'i', '!'], 0 < c.toNat ∧ c.toNat < 128) ∧
    (format.decodeHexString (abiEncodeString (String.mk ['H', 'i', '!']))
        = some (String.mk ['H', 'i', '!']) ∧
      (['H', 'i', '!'].length ≤ 63 →
        format.decodeHexString
            (String.mk ('0' :: 'x' :: bytesToHex (['H', 'i', '!'].map Char.toNat)))
          = some (String.mk ['H', 'i', '!']))) :=
  ⟨by decide, decodeHexString_abi_roundtrip ['H', 'i', '!'] (by decide)⟩

/-- C1: on every response envelope with a populated `error` member, each of
the eight operations fails with the node's error message (as the suffix of the
thrown message) and invokes no decoder: the outcome is a node failure that
does not depend on the `result` field. -/
theorem node_error_fails_without_decoding (r r' : String) (e : JsonRpcError) :
    (crc20.getBalance ⟨r, some e⟩
        = Except.error (OpError.node ("[crc20/getBalance] error: " ++ e.message))
      ∧ crc20.getBalance ⟨r, some e⟩ = crc20.getBalance ⟨r', some e⟩) ∧
    (crc20.getBalanceOf ⟨r, some e⟩
        = Except.error (OpError.node ("[crc20/getBalanceOf] error: " ++ e.message))
      ∧ crc20.getBalanceOf ⟨r, some e⟩ = crc20.getBalanceOf ⟨r', some e⟩) ∧
    (crc20.getName ⟨r, some e⟩
        = Except.error (OpError.node ("[crc20/getName] error: " ++ e.message))
      ∧ crc20.getName ⟨r, some e⟩ = crc20.getName ⟨r', some e⟩) ∧
    (crc20.getSymbol ⟨r, some e⟩
        = Except.error (OpError.node ("[crc20/getSymbol] error: " ++ e.message))
      ∧ crc20.getSymbol ⟨r, some e⟩ = crc20.getSymbol ⟨r', some e⟩) ∧
    (crc20.getTotalSupply ⟨r, some e⟩
        = Except.error (OpError.node ("[crc20/getTotalSupply] error: " ++ e.message))
      ∧ crc20.getTotalSupply ⟨r, some e⟩ = crc20.getTotalSupply ⟨r', some e⟩) ∧
    (crc721.getBalanceOf ⟨r, some e⟩
        = Except.error (OpError.node ("[crc721/getBalanceOf] error: " ++ e.message))
      ∧ crc721.getBalanceOf ⟨r, some e⟩ = crc721.getBalanceOf ⟨r', some e⟩) ∧
    (crc721.getOwnerOf ⟨r, some e⟩
        = Except.error (OpError.node ("[crc721/getOwnerOf] error: " ++ e.message))
      ∧ crc721.getOwnerOf ⟨r, some e⟩ = crc721.getOwnerOf ⟨r', some e⟩) ∧
    (crc721.getTokenUri ⟨r, some e⟩
        = Except.error (OpError.node ("[crc721/getBalanceOf] error: " ++ e.message))
      ∧ crc721.getTokenUri ⟨r, some e⟩ = crc721.getTokenUri ⟨r', some e⟩) :=
  ⟨⟨rfl, rfl⟩, ⟨rfl, rfl⟩, ⟨rfl, rfl⟩, ⟨rfl, rfl⟩, ⟨rfl, rfl⟩, ⟨rfl, rfl⟩,
    ⟨rfl, rfl⟩, ⟨rfl, rfl⟩⟩

/-- C2 fails on the code: a node-reported error during `crc721.getTokenUri`
is thrown with the tag `[crc721/getBalanceOf]`, not the identity of the
failing operation `getTokenUri` (a copy-paste slip in the source, which
contradicts the operation's own documentation). -/
theorem getTokenUri_mislabels_node_errors :
    crc721.getTokenUri ⟨"0x", some ⟨"execution reverted"⟩⟩
      = Except.error (OpError.node "[crc721/getBalanceOf] error: execution reverted") ∧
    "[crc721/getBalanceOf] error: execution reverted"
      ≠ "[crc721/getTokenUri] error: execution reverted" :=
  ⟨rfl, by decide⟩

/-- C5: both fungible balance operations scale by 18 decimals: 1·10^18 wei
through `getBalance` yields "1", 1000·10^18 through `getBalanceOf` yields
"1000". -/
theorem balance_operations_scale_18 :
    crc20.getBalance ⟨"0x0de0b6b3a7640000", none⟩ = Except.ok "1" ∧
    crc20.getBalanceOf ⟨"0x3635c9adc5dea00000", none⟩ = Except.ok "1000" :=
  ⟨rfl, rfl⟩

/-- C6: `getTotalSupply` scales by 6 decimals: the hex encoding of 1000000
yields "1". -/
theorem totalSupply_scales_6 :
    crc20.getTotalSupply ⟨"0xf4240", none⟩ = Except.ok "1" :=
  rfl

/-- C7: on every successful envelope, `crc721.getOwnerOf` returns the result
string unchanged, with no decoder applied. -/
theorem getOwnerOf_passthrough (r : String) :
    crc721.getOwnerOf ⟨r, none⟩ = Except.ok r :=
  rfl

/-- C8 counterexample: an apiKey is supplied (the empty string), yet the
created client sends no `Authorization: Bearer ` header — its header set is
empty — so "if an apiKey was supplied, every request carries the header"
fails as stated. -/
theorem c8_empty_key_counterexample :
    ("Authorization", "Bearer " ++ "")
        ∉ ((createClient ⟨"https://evm.cronos.org", some ""⟩).post
            ⟨"eth_call", []⟩).headers ∧
    ((createClient ⟨"https://evm.cronos.org", some ""⟩).post
        ⟨"eth_call", []⟩).headers = [] := by
  constructor
  · simp [createClient, createClientHeaders, Client.post]
  · rfl

/-- C8 (amended): if a non-empty apiKey is supplied, every request of every
operation carries exactly the header `Authorization: Bearer <apiKey>`; if no
apiKey, or the empty string, is supplied, no header is sent on any call. -/
theorem auth_header_amended (ep k : String) (payload : JsonRpcRequestPayload) :
    (k ≠ "" →
      ((createClient ⟨ep, some k⟩).post payload).headers
        = [("Authorization", "Bearer " ++ k)]) ∧
    ((createClient ⟨ep, none⟩).post payload).headers = [] ∧
    ((createClient ⟨ep, some ""⟩).post payload).headers = [] := by
  refine ⟨fun hk => ?_, rfl, rfl⟩
  simp [createClient, createClientHeaders, Client.post, hk]

/-- Witness for the amended C8 theorem at a concrete non-empty key. -/
theorem auth_header_amended_witness :
    ((createClient ⟨"https://evm.cronos.org", some "k1"⟩).post
        ⟨"eth_call", []⟩).headers = [("Authorization", "Bearer " ++ "k1")] :=
  (auth_header_amended "https://evm.cronos.org" "k1" ⟨"eth_call", []⟩).1 (by decide)

/-- C10: a client constructed with the empty-string apiKey sends no
Authorization header on any call — the truthiness test treats it exactly like
an absent key. -/
theorem empty_apiKey_no_auth_header (ep : String) (payload : JsonRpcRequestPayload) :
    ((createClient ⟨ep, some ""⟩).post payload).headers = [] ∧
    ((createClient ⟨ep, some ""⟩).post payload).headers
      = ((createClient ⟨ep, none⟩).post payload).headers :=
  ⟨rfl, rfl⟩
